import Mathlib

/-!
Shallow embedding of the httptest mock-HTTP-server crate: the cardinality
(`Times`) bounds algebra from `src/into_times.rs`, the expectation registry and
per-request dispatch algorithm from `src/server.rs`, the matcher combinators
from `src/matchers.rs` / `src/matchers/request.rs`, and the responders from
`src/responders.rs`.

Machine integers (`usize`) are modelled as `Nat`; the one place the source
performs a subtraction that can underflow (`RangeDisplay`, `x - 1` on an
excluded upper bound) is modelled with a checked subtraction returning
`Option`, `none` standing for the Rust panic. Fallible operations (slice
indexing inside `Cycle::respond`, the formatting panic) likewise return
`Option`.
-/

namespace Httptest

/-- Embeds `std::ops::Bound<usize>` as used for cardinality bounds. -/
inductive HBound where
  | included (n : Nat)
  | excluded (n : Nat)
  | unbounded
deriving DecidableEq, Repr

/-- A cardinality specification: `(Bound<usize>, Bound<usize>)` as stored in
`Expectation::times` (`src/server.rs`). -/
abbrev Times := HBound × HBound

/-- Embeds `times_exceeded` (`src/server.rs` lines 193-199): whether the
post-increment hit count exceeds the upper cardinality bound. -/
def times_exceeded (endBound : HBound) (hitCount : Nat) : Bool :=
  match endBound with
  | .included limit => decide (limit < hitCount)
  | .excluded limit => decide (limit ≤ hitCount)
  | .unbounded => false

/-- Embeds the std `RangeBounds::contains` blanket implementation applied to a
`(Bound<usize>, Bound<usize>)` pair, as invoked by `hit_count_is_valid`. -/
def boundsContains (bounds : Times) (item : Nat) : Bool :=
  (match bounds.1 with
   | .included s => decide (s ≤ item)
   | .excluded s => decide (s < item)
   | .unbounded => true)
  &&
  (match bounds.2 with
   | .included e => decide (item ≤ e)
   | .excluded e => decide (item < e)
   | .unbounded => true)

/-- Embeds `hit_count_is_valid` (`src/server.rs` lines 201-203). -/
def hit_count_is_valid (bounds : Times) (hitCount : Nat) : Bool :=
  boundsContains bounds hitCount

/-! The `IntoTimes` conversions (`src/into_times.rs`). Each Rust range type
converts by taking its `start_bound()` and `end_bound()`, so each range shape
becomes one function here. -/

/-- Embeds `impl IntoTimes for usize`: `(Included(n), Included(n))`. -/
def intoTimesUsize (n : Nat) : Times := (.included n, .included n)

/-- Embeds `IntoTimes` for `Range<usize>` (`a..b`): start bound included, end
bound excluded. -/
def intoTimesRange (start stop : Nat) : Times := (.included start, .excluded stop)

/-- Embeds `IntoTimes` for `RangeFrom<usize>` (`a..`). -/
def intoTimesRangeFrom (start : Nat) : Times := (.included start, .unbounded)

/-- Embeds `IntoTimes` for `RangeInclusive<usize>` (`a..=b`). -/
def intoTimesRangeInclusive (start stop : Nat) : Times := (.included start, .included stop)

/-- Embeds `IntoTimes` for `RangeTo<usize>` (`..b`). -/
def intoTimesRangeTo (stop : Nat) : Times := (.unbounded, .excluded stop)

/-- Embeds `IntoTimes` for `RangeToInclusive<usize>` (`..=b`). -/
def intoTimesRangeToInclusive (stop : Nat) : Times := (.unbounded, .included stop)

/-- Embeds `IntoTimes` for `RangeFull` (`..`). -/
def intoTimesRangeFull : Times := (.unbounded, .unbounded)

/-! `RangeDisplay` (`src/server.rs` lines 342-372): renders a bound pair for
error messages, canonicalizing both bounds to inclusive-or-unbounded first. -/

/-- The local `MyBound` enum inside `RangeDisplay::fmt`. -/
inductive MyBound where
  | included (n : Nat)
  | unbounded
deriving DecidableEq, Repr

/-- Checked `usize` subtraction: `none` models the Rust underflow panic. -/
def checkedSub (a b : Nat) : Option Nat :=
  if b ≤ a then some (a - b) else none

/-- Canonicalization of the start bound in `RangeDisplay::fmt`:
`Excluded(x)` becomes `Included(x + 1)`. -/
def rangeDisplayStart : HBound → MyBound
  | .included x => .included x
  | .excluded x => .included (x + 1)
  | .unbounded => .unbounded

/-- Canonicalization of the end bound in `RangeDisplay::fmt`: `Excluded(x)`
becomes `Included(x - 1)`, a `usize` subtraction that underflows when
`x = 0` (modelled as `none`). -/
def rangeDisplayEnd : HBound → Option MyBound
  | .included x => some (.included x)
  | .excluded x => (checkedSub x 1).map MyBound.included
  | .unbounded => some .unbounded

/-- The final match of `RangeDisplay::fmt` over the canonicalized bounds. -/
def renderBounds : MyBound → MyBound → String
  | .included mn, .unbounded => "AtLeast(" ++ toString mn ++ ")"
  | .unbounded, .included mx => "AtMost(" ++ toString mx ++ ")"
  | .included mn, .included mx =>
      if mn == mx then "Exactly(" ++ toString mx ++ ")"
      else "Between(" ++ toString mn ++ "..=" ++ toString mx ++ ")"
  | .unbounded, .unbounded => "Any"

/-- Embeds `RangeDisplay` as a whole: `none` models the formatting panic on
an `Excluded(0)` upper bound. -/
def rangeDisplay (times : Times) : Option String :=
  (rangeDisplayEnd times.2).map (fun e => renderBounds (rangeDisplayStart times.1) e)

/-- Embeds the body built by `times_error` (`src/server.rs` lines 323-340).
The matcher debug name (`matcher_name`) is passed in as a string. -/
def times_error (matcherName : String) (times : Times) (hitCount : Nat) : Option String :=
  (rangeDisplay times).map (fun d =>
    "Unexpected number of requests for matcher \x27" ++ matcherName ++
      "\x27; received " ++ toString hitCount ++ "; expected " ++ d)

/-! The HTTP data model. A `FullRequest` (`http::Request<Bytes>` with the body
fully buffered) is modelled by its structural projections; a response by its
status code and body. -/

/-- A fully-buffered HTTP request (`http::Request<hyper::body::Bytes>`).
`query` is `Option` because `http::Uri::query()` returns `Option<&str>`. -/
structure Request where
  method : String
  path : String
  query : Option String
  headers : List (String × String)
  body : String
deriving DecidableEq, Repr

/-- An HTTP response (`http::Response<Bytes>`), reduced to the status code and
body that the claims are about. -/
structure Response where
  status : Nat
  body : String
deriving DecidableEq, Repr

/-! Responders (`src/responders.rs`). The states needed by the claims:
`status_code` (a `ResponseBuilder` with empty body), a literal pre-built
response, and the stateful `Cycle`. `respond` consumes the mutable borrow of
the Rust code into explicit state passing; `none` models the panic that
`Cycle::respond` hits when its index is out of range (only possible for a
`Cycle` built outside `cycle()`, which rejects empty lists). -/

/-- Embeds the responders relevant to the claims. `cycle idx responders` is
the `Cycle` struct (`src/responders.rs` lines 199-203). -/
inductive Responder where
  | status_code (code : Nat)
  | fixed (resp : Response)
  | cycle (idx : Nat) (responders : List Responder)

mutual
/-- Embeds `Responder::respond` for the states above. `Cycle::respond`
(`src/responders.rs` lines 205-214) saves the current index, advances
`idx` to `(idx + 1) % len`, and delegates to the responder at the saved
index, whose own state update is written back in place. The
index-and-update (`self.responders[idx].respond(req)` on the `&mut` vec) is
implemented by the structural list walk `respondAt`; the lemma
`respondAt_getElem_set` below proves it equal to the `rs[idx]?` /
`rs.set idx` formulation. -/
def Responder.respond : Responder → Request → Option (Response × Responder)
  | .status_code c, _ => some (⟨c, ""⟩, .status_code c)
  | .fixed r, _ => some (r, .fixed r)
  | .cycle idx rs, req =>
      match respondAt rs idx req with
      | none => none
      | some p => some (p.1, .cycle ((idx + 1) % rs.length) p.2)

/-- Respond with the responder at the given position, writing its updated
state back at the same position; `none` (the Rust indexing panic) when the
position is out of range. -/
def respondAt : List Responder → Nat → Request → Option (Response × List Responder)
  | [], _, _ => none
  | r :: rest, 0, req =>
      match r.respond req with
      | none => none
      | some p => some (p.1, p.2 :: rest)
  | r :: rest, n + 1, req =>
      match respondAt rest n req with
      | none => none
      | some p => some (p.1, r :: p.2)
end

/-- Iterated invocation of a responder: the list of responses produced by `n`
sequential requests, threading the responder state. -/
def respondSeq (r : Responder) (req : Request) : Nat → Option (List Response × Responder)
  | 0 => some ([], r)
  | n + 1 =>
    match r.respond req with
    | none => none
    | some p =>
      match respondSeq p.2 req n with
      | none => none
      | some q => some (p.1 :: q.1, q.2)

/-! The expectation model and registry (`src/server.rs`). A registered
matcher is a boxed `dyn Matcher<FullRequest>`; dispatch only observes it
through `ExecutionContext::evaluate`, which returns a `bool`, so it is
modelled as a function `Request → Bool`. `matcherName` models the string
that `matcher_name(&*expectation.matcher)` debug-formats to. -/

/-- Embeds `Expectation` (`src/server.rs` lines 205-211). -/
structure Expectation where
  matcher : Request → Bool
  matcherName : String
  times : Times
  responder : Responder
  hit_count : Nat

/-- Embeds `ExpectationBuilder` (`src/server.rs` lines 234-238). -/
structure ExpectationBuilder where
  matcher : Request → Bool
  matcherName : String
  times : Times

/-- Embeds `Expectation::matching` (`src/server.rs` lines 213-222): a builder
holding the matcher and the default cardinality of exactly one request. -/
def Expectation.matching (m : Request → Bool) (name : String) : ExpectationBuilder :=
  { matcher := m, matcherName := name, times := (.included 1, .included 1) }

/-- Embeds `ExpectationBuilder::times` (`src/server.rs` lines 256-264); the
argument is the `IntoTimes` conversion of the caller-supplied range. -/
def ExpectationBuilder.set_times (b : ExpectationBuilder) (t : Times) : ExpectationBuilder :=
  { b with times := t }

/-- Embeds `ExpectationBuilder::respond_with` (`src/server.rs` lines 267-274):
finalizes the builder into an `Expectation` with hit count 0. -/
def ExpectationBuilder.respond_with (b : ExpectationBuilder) (r : Responder) : Expectation :=
  { matcher := b.matcher, matcherName := b.matcherName, times := b.times,
    responder := r, hit_count := 0 }

/-- Embeds `ServerStateInner` (`src/server.rs` lines 297-301): the registered
expectations in registration order plus the unexpected-request log. -/
structure ServerStateInner where
  unexpected_requests : List Request
  expected : List Expectation

/-- The empty state produced by `ServerStateInner::default` / `mem::take`. -/
def defaultState : ServerStateInner := { unexpected_requests := [], expected := [] }

/-- The verdict of evaluating the matcher of the expectation at index `j`
against a request (false when `j` is out of range). -/
def evalMatcherAt (expected : List Expectation) (j : Nat) (req : Request) : Bool :=
  match expected[j]? with
  | some e => e.matcher req
  | none => false

/-- Embeds the loop of `ServerStateInner::find_expectation` (`src/server.rs`
lines 304-311): indices `k-1, k-2, ..., 0` are consulted in that order and the
first whose matcher evaluates true is returned. Besides the result the
function returns the registry indices that were consulted, in consultation
order (the source logs each evaluation via `ExecutionContext`). -/
def findDownFrom (expected : List Expectation) (req : Request) : Nat → Option Nat × List Nat
  | 0 => (none, [])
  | k + 1 =>
    if evalMatcherAt expected k req then (some k, [k])
    else
      let r := findDownFrom expected req k
      (r.1, k :: r.2)

/-- Embeds `ServerStateInner::find_expectation`: iterate the expectations in
reverse registration order (`iter_mut().rev()`), returning the index of the
first match together with the consultation trace. -/
def find_expectation (s : ServerStateInner) (req : Request) : Option Nat × List Nat :=
  findDownFrom s.expected req s.expected.length

/-- Embeds `on_req` (`src/server.rs` lines 157-191): find the first matching
expectation (most recently registered first); if found, increment its hit
count and either invoke its responder (upper bound not exceeded) or build the
`times_error` 500 response; if none matches, log the request and reply 500
`"No matcher found"`. `none` models a panic (broken `Cycle` responder or the
`RangeDisplay` underflow while formatting). -/
def on_req (s : ServerStateInner) (req : Request) : Option (Response × ServerStateInner) :=
  match (find_expectation s req).1 with
  | some i =>
    match s.expected[i]? with
    | none => none
    | some e =>
      let cnt := e.hit_count + 1
      if times_exceeded e.times.2 cnt then
        match times_error e.matcherName e.times cnt with
        | none => none
        | some b =>
          some (⟨500, b⟩, { s with expected := s.expected.set i { e with hit_count := cnt } })
      else
        match e.responder.respond req with
        | none => none
        | some p =>
          let eNew : Expectation := { e with hit_count := cnt, responder := p.2 }
          some (p.1, { s with expected := s.expected.set i eNew })
  | none =>
      some (⟨500, "No matcher found"⟩,
            { s with unexpected_requests := s.unexpected_requests ++ [req] })

/-- The observable outcome of `Server::verify_and_clear`: either it returns
normally, or it panics on the first expectation whose hit count is outside
its bound, or it panics on a non-empty unexpected-request log. -/
inductive VerifyOutcome where
  | ok
  | panicUnsatisfied (idx : Nat)
  | panicUnexpected (reqs : List Request)
deriving DecidableEq, Repr

/-- The index of the first expectation whose hit count is outside its
cardinality bound, following the loop in `verify_and_clear`. -/
def firstUnsatisfied : List Expectation → Nat → Option Nat
  | [], _ => none
  | e :: rest, i =>
    if hit_count_is_valid e.times e.hit_count then firstUnsatisfied rest (i + 1)
    else some i

/-- Embeds `Server::verify_and_clear` (`src/server.rs` lines 70-124): the
state is always reset to the default (`mem::take`); when the thread is
already panicking the function only prints and returns; otherwise it panics
on the first unsatisfied expectation, then on a non-empty
unexpected-request log. -/
def verify_and_clear (panicking : Bool) (s : ServerStateInner) :
    VerifyOutcome × ServerStateInner :=
  if panicking then (.ok, defaultState)
  else
    match firstUnsatisfied s.expected 0 with
    | some i => (.panicUnsatisfied i, defaultState)
    | none =>
      if s.unexpected_requests.isEmpty then (.ok, defaultState)
      else (.panicUnexpected s.unexpected_requests, defaultState)

/-- The list of registry indices `[k-1, k-2, ..., i]` (empty when `k ≤ i`):
the consultation order of a reverse scan that stops at index `i`. -/
def descRange (i : Nat) : Nat → List Nat
  | 0 => []
  | k + 1 => if i ≤ k then k :: descRange i k else []

/-! The matcher combinators (`src/matchers.rs`, `src/matchers/request.rs`)
needed by the claims, as a deep embedding indexed by the input type. `fn f`
is the blanket `impl Matcher<IN> for F: Fn(&IN) -> bool` (and stands for any
leaf matcher that makes no `ctx.chain` call, such as `Any` or `Eq`);
`jsonDecoded` carries the decoding function (`serde_json::from_slice`
specialised to the target type, an external collaborator) as a parameter. -/

mutual
/-- Deep embedding of the matcher combinators used by the claims. `AllOf` and
`AnyOf` hold a `Vec<Box<dyn Matcher<IN>>>`, represented by `MatcherList`. -/
inductive Matcher : Type → Type 1 where
  | fn {α : Type} (f : α → Bool) : Matcher α
  | allOf {α : Type} (inner : MatcherList α) : Matcher α
  | anyOf {α : Type} (inner : MatcherList α) : Matcher α
  | jsonDecoded {α β : Type} (parse : α → Option β) (inner : Matcher β) : Matcher α
  | query (inner : Matcher String) : Matcher Request

/-- A list of matchers over a common input type (a `Vec<Box<dyn Matcher<IN>>>`). -/
inductive MatcherList : Type → Type 1 where
  | nil {α : Type} : MatcherList α
  | cons {α : Type} (m : Matcher α) (ms : MatcherList α) : MatcherList α
end

mutual
/-- Instrumented matcher evaluation: the boolean verdict of
`Matcher::matches` together with the total number of `ctx.chain`
invocations performed (the source emits one trace record per `chain` call,
so this counts sub-matcher invocations).

The clauses follow the source: `AllOf::matches` is `iter().all` over
`ctx.chain` (short-circuiting, vacuously true on `[]`), `AnyOf::matches` is
`iter().any` (vacuously false on `[]`); `JsonDecoded::matches`
(`src/matchers.rs` lines 537-543) returns `false` without chaining when
decoding fails and otherwise chains to the inner matcher on the decoded
value; `Query::matches` (`src/matchers/request.rs` lines 80-82) chains the
inner matcher on `uri().query().unwrap_or("")`. -/
def Matcher.matchesC : {α : Type} → Matcher α → α → Bool × Nat
  | _, .fn f, x => (f x, 0)
  | _, .allOf ms, x => matchesAll ms x
  | _, .anyOf ms, x => matchesAny ms x
  | _, .jsonDecoded parse inner, x =>
      match parse x with
      | none => (false, 0)
      | some v =>
        let r := Matcher.matchesC inner v
        (r.1, r.2 + 1)
  | _, .query inner, req =>
      let r := Matcher.matchesC inner (req.query.getD "")
      (r.1, r.2 + 1)

/-- The `iter().all(|m| ctx.chain(m, input))` loop of `AllOf::matches`. -/
def matchesAll : {α : Type} → MatcherList α → α → Bool × Nat
  | _, .nil, _ => (true, 0)
  | _, .cons m ms, x =>
      let r := Matcher.matchesC m x
      if r.1 then
        let rest := matchesAll ms x
        (rest.1, r.2 + 1 + rest.2)
      else (false, r.2 + 1)

/-- The `iter().any(|m| ctx.chain(m, input))` loop of `AnyOf::matches`. -/
def matchesAny : {α : Type} → MatcherList α → α → Bool × Nat
  | _, .nil, _ => (false, 0)
  | _, .cons m ms, x =>
      let r := Matcher.matchesC m x
      if r.1 then (true, r.2 + 1)
      else
        let rest := matchesAny ms x
        (rest.1, r.2 + 1 + rest.2)
end

/-- Embeds `impl Matcher<IN> for &str` (`src/matchers.rs` lines 205-216):
byte equality of the held string against the input. -/
def strMatcher (s : String) : Matcher String :=
  .fn (fun input => s == input)

/-! Concrete fixtures used to instantiate the theorems below. -/

/-- A concrete request: `GET /foo` with no query string. -/
def sampleReq : Request :=
  { method := "GET", path := "/foo", query := none, headers := [], body := "" }

/-- A broad expectation: matcher `Any`, default cardinality, responding 200. -/
def sampleExpBroad : Expectation :=
  { matcher := fun _ => true, matcherName := "Any",
    times := (.included 1, .included 1), responder := .status_code 200, hit_count := 0 }

/-- A narrower expectation: path must equal `/foo`, responding 201. -/
def sampleExpNarrow : Expectation :=
  { matcher := fun r => r.path == "/foo", matcherName := "Path(Eq(\"/foo\"))",
    times := (.included 1, .included 1), responder := .status_code 201, hit_count := 0 }

/-- An expectation that matches nothing requested in the fixtures. -/
def sampleExpOther : Expectation :=
  { matcher := fun r => r.path == "/bar", matcherName := "Path(Eq(\"/bar\"))",
    times := (.included 1, .included 1), responder := .status_code 200, hit_count := 0 }

/-- Registry with the broad expectation registered first and the narrow one
second; `sampleReq` matches both. -/
def sampleStateTwo : ServerStateInner :=
  { unexpected_requests := [], expected := [sampleExpBroad, sampleExpNarrow] }

/-- Registry whose single expectation (exactly-1) has already been hit once. -/
def sampleStateExceeded : ServerStateInner :=
  { unexpected_requests := [],
    expected := [{ sampleExpBroad with hit_count := 1 }] }

/-- Registry whose single expectation does not match `sampleReq`. -/
def sampleStateNoMatch : ServerStateInner :=
  { unexpected_requests := [], expected := [sampleExpOther] }

end Httptest

namespace Httptest

/-! Helper lemmas shared by the claim theorems. -/

/-- Unfolding lemma for `Responder.respond` on a `status_code` responder. -/
theorem respond_status_code (c : Nat) (req : Request) :
    Responder.respond (.status_code c) req = some (⟨c, ""⟩, .status_code c) := rfl

/-- Unfolding lemma for `Responder.respond` on a literal response. -/
theorem respond_fixed (r : Response) (req : Request) :
    Responder.respond (.fixed r) req = some (r, .fixed r) := rfl

/-- The structural walk `respondAt` equals index-then-update: respond with
the responder at `rs[idx]?` and write its updated state back with `rs.set`. -/
theorem respondAt_getElem_set (rs : List Responder) (idx : Nat) (req : Request) :
    respondAt rs idx req =
      match rs[idx]? with
      | none => none
      | some r =>
        match r.respond req with
        | none => none
        | some p => some (p.1, rs.set idx p.2) := by
  induction rs generalizing idx with
  | nil => cases idx <;> rfl
  | cons r rest ih =>
    cases idx with
    | zero =>
      simp only [respondAt, List.getElem?_cons_zero, List.set_cons_zero]
    | succ n =>
      simp only [respondAt, ih, List.getElem?_cons_succ, List.set_cons_succ]
      cases hx : rest[n]? with
      | none => simp [hx]
      | some rr =>
        simp only [hx]
        cases hr : rr.respond req <;> simp [hr]

/-- Non-dependent unfolding lemma for `Responder.respond` on a `Cycle`. -/
theorem respond_cycle (idx : Nat) (rs : List Responder) (req : Request) :
    Responder.respond (.cycle idx rs) req =
      match rs[idx]? with
      | none => none
      | some r =>
        match r.respond req with
        | none => none
        | some p => some (p.1, .cycle ((idx + 1) % rs.length) (rs.set idx p.2)) := by
  simp only [Responder.respond, respondAt_getElem_set]
  cases hx : rs[idx]? with
  | none => rfl
  | some r =>
    simp only []
    cases hr : r.respond req with
    | none => rfl
    | some p => rfl

/-- Every element of `descRange i k` lies in the interval `[i, k)`. -/
theorem mem_descRange {i k j : Nat} (h : j ∈ descRange i k) : i ≤ j ∧ j < k := by
  induction k with
  | zero => simp [descRange] at h
  | succ k ih =>
    simp only [descRange] at h
    by_cases hik : i ≤ k
    · simp only [if_pos hik, List.mem_cons] at h
      rcases h with h | h
      · omega
      · have := ih h; omega
    · simp [if_neg hik] at h

/-- The reverse scan is empty when it starts at or below the stop index. -/
theorem descRange_eq_nil {i k : Nat} (h : k ≤ i) : descRange i k = [] := by
  cases k with
  | zero => rfl
  | succ k => simp only [descRange]; rw [if_neg (by omega)]

/-- Characterization of a successful reverse scan: the returned index is the
greatest index below `k` whose matcher matches, and the consultation trace is
exactly the indices `k-1` down to `i`. -/
theorem findDownFrom_some {expected : List Expectation} {req : Request} {k i : Nat}
    {c : List Nat} (h : findDownFrom expected req k = (some i, c)) :
    i < k ∧ evalMatcherAt expected i req = true
  ∧ (∀ j, i < j → j < k → evalMatcherAt expected j req = false)
  ∧ c = descRange i k := by
  induction k generalizing c with
  | zero => simp [findDownFrom] at h
  | succ k ih =>
    simp only [findDownFrom] at h
    by_cases hm : evalMatcherAt expected k req
    · rw [if_pos hm] at h
      obtain ⟨hi, hc⟩ : some k = some i ∧ [k] = c := by
        constructor <;> [exact congrArg Prod.fst h; exact congrArg Prod.snd h]
      obtain rfl : k = i := by injection hi
      refine ⟨by omega, hm, ?_, ?_⟩
      · intro j hj1 hj2; omega
      · rw [← hc]
        simp only [descRange]
        rw [if_pos (le_refl k), descRange_eq_nil (le_refl k)]
    · rw [if_neg hm] at h
      obtain ⟨hr1, hr2⟩ : (findDownFrom expected req k).1 = some i
          ∧ k :: (findDownFrom expected req k).2 = c := by
        constructor <;> [exact congrArg Prod.fst h; exact congrArg Prod.snd h]
      obtain ⟨hi, hval, hrest, htrace⟩ :=
        ih (c := (findDownFrom expected req k).2) (by rw [← hr1])
      refine ⟨by omega, hval, ?_, ?_⟩
      · intro j hj1 hj2
        rcases Nat.lt_succ_iff_lt_or_eq.mp hj2 with hj | rfl
        · exact hrest j hj1 hj
        · simpa using hm
      · rw [← hr2, htrace]
        simp only [descRange]
        rw [if_pos (by omega)]

/-- Characterization of a failed reverse scan: no index below `k` matches and
every one of them was consulted, in reverse order. -/
theorem findDownFrom_none {expected : List Expectation} {req : Request} {k : Nat}
    {c : List Nat} (h : findDownFrom expected req k = (none, c)) :
    (∀ j, j < k → evalMatcherAt expected j req = false) ∧ c = descRange 0 k := by
  induction k generalizing c with
  | zero =>
    simp only [findDownFrom] at h
    obtain ⟨-, hc⟩ : (none : Option Nat) = none ∧ ([] : List Nat) = c := by
      constructor <;> [exact congrArg Prod.fst h; exact congrArg Prod.snd h]
    exact ⟨by omega, by rw [← hc]; rfl⟩
  | succ k ih =>
    simp only [findDownFrom] at h
    by_cases hm : evalMatcherAt expected k req
    · rw [if_pos hm] at h
      have : some k = none := congrArg Prod.fst h
      simp at this
    · rw [if_neg hm] at h
      obtain ⟨hr1, hr2⟩ : (findDownFrom expected req k).1 = none
          ∧ k :: (findDownFrom expected req k).2 = c := by
        constructor <;> [exact congrArg Prod.fst h; exact congrArg Prod.snd h]
      obtain ⟨hall, htrace⟩ := ih (c := (findDownFrom expected req k).2) (by rw [← hr1])
      refine ⟨?_, ?_⟩
      · intro j hj
        rcases Nat.lt_succ_iff_lt_or_eq.mp hj with hj | rfl
        · exact hall j hj
        · simpa using hm
      · rw [← hr2, htrace]
        simp only [descRange]
        rw [if_pos (by omega)]

/-- Updating the expectation at index `i` with an incremented hit count
changes exactly that slot of the registry. -/
theorem setAt_getElem (l : List Expectation) (i : Nat) (e eNew : Expectation)
    (hi : i < l.length) (he : l[i]? = some e)
    (hcnt : eNew.hit_count = e.hit_count + 1) :
    (l.set i eNew).length = l.length
  ∧ ((l.set i eNew)[i]?).map Expectation.hit_count
      = (l[i]?).map (fun x => x.hit_count + 1)
  ∧ ∀ j, j ≠ i → (l.set i eNew)[j]? = l[j]? := by
  refine ⟨by simp, ?_, ?_⟩
  · rw [List.getElem?_set_eq_of_lt eNew hi, he]
    simp [hcnt]
  · intro j hj
    exact List.getElem?_set_ne (fun hij => hj hij.symm)

/-- Claim C1: dispatch consults the registered expectations in reverse
registration order (the consultation trace is exactly the indices from the
most recent down to the match) and attributes the request to the most
recently registered expectation whose matcher returns true: that
expectation's matcher evaluates true, every later-registered one evaluates
false, no earlier-registered expectation is consulted, and `on_req`
increments exactly the matched expectation's hit count, leaving every other
expectation and the unexpected-request log unchanged. -/
theorem claim_c1_dispatch_reverse_first_match (s : ServerStateInner)
    (req : Request) (i : Nat) (consulted : List Nat)
    (hf : find_expectation s req = (some i, consulted)) :
    i < s.expected.length
  ∧ evalMatcherAt s.expected i req = true
  ∧ (∀ j, i < j → j < s.expected.length → evalMatcherAt s.expected j req = false)
  ∧ consulted = descRange i s.expected.length
  ∧ (∀ j, j ∈ consulted → i ≤ j ∧ j < s.expected.length)
  ∧ (∀ resp sNew, on_req s req = some (resp, sNew) →
        sNew.unexpected_requests = s.unexpected_requests
      ∧ sNew.expected.length = s.expected.length
      ∧ (sNew.expected[i]?).map Expectation.hit_count
          = (s.expected[i]?).map (fun e => e.hit_count + 1)
      ∧ (∀ j, j ≠ i → sNew.expected[j]? = s.expected[j]?)) := by
  have hf2 : findDownFrom s.expected req s.expected.length = (some i, consulted) := hf
  obtain ⟨hi, hval, hafter, htrace⟩ := findDownFrom_some hf2
  refine ⟨hi, hval, hafter, htrace, ?_, ?_⟩
  · intro j hj
    rw [htrace] at hj
    exact mem_descRange hj
  · intro resp sNew hon
    have hfe : (find_expectation s req).1 = some i := by rw [hf]
    obtain ⟨e, he⟩ : ∃ e, s.expected[i]? = some e := by
      rw [List.getElem?_eq_getElem hi]
      exact ⟨_, rfl⟩
    simp only [on_req, hfe, he] at hon
    by_cases hex : times_exceeded e.times.2 (e.hit_count + 1) = true
    · rw [if_pos hex] at hon
      cases hte : times_error e.matcherName e.times (e.hit_count + 1) with
      | none =>
        rw [hte] at hon
        exact absurd hon (by simp)
      | some b =>
        rw [hte] at hon
        have hs := congrArg Prod.snd (Option.some.inj hon)
        subst hs
        exact ⟨rfl, (setAt_getElem s.expected i e _ hi he rfl).1,
          (setAt_getElem s.expected i e _ hi he rfl).2.1,
          (setAt_getElem s.expected i e _ hi he rfl).2.2⟩
    · rw [if_neg hex] at hon
      cases hre : e.responder.respond req with
      | none =>
        rw [hre] at hon
        exact absurd hon (by simp)
      | some p =>
        rw [hre] at hon
        have hs := congrArg Prod.snd (Option.some.inj hon)
        subst hs
        exact ⟨rfl, (setAt_getElem s.expected i e _ hi he rfl).1,
          (setAt_getElem s.expected i e _ hi he rfl).2.1,
          (setAt_getElem s.expected i e _ hi he rfl).2.2⟩

/-- Witness for C1: with a broad expectation registered first and a narrower
one second, a request matching both is attributed to the second (index 1),
which is the only index consulted. -/
theorem claim_c1_dispatch_reverse_first_match_witness :
    evalMatcherAt sampleStateTwo.expected 1 sampleReq = true
  ∧ [1] = descRange 1 sampleStateTwo.expected.length
  ∧ (∀ resp sNew, on_req sampleStateTwo sampleReq = some (resp, sNew) →
        sNew.unexpected_requests = sampleStateTwo.unexpected_requests
      ∧ sNew.expected.length = sampleStateTwo.expected.length
      ∧ (sNew.expected[1]?).map Expectation.hit_count
          = (sampleStateTwo.expected[1]?).map (fun e => e.hit_count + 1)
      ∧ (∀ j, j ≠ 1 → sNew.expected[j]? = sampleStateTwo.expected[j]?)) := by
  have h := claim_c1_dispatch_reverse_first_match sampleStateTwo sampleReq 1 [1] rfl
  exact ⟨h.2.1, h.2.2.2.1, h.2.2.2.2.2⟩

/-- A pair whose first component is known is the pair of that value and its
second component (definitional eta for products). -/
theorem eq_pair_of_fst_eq {α β : Type} {p : α × β} {a : α} (h : p.1 = a) :
    p = (a, p.2) := by
  subst h
  rfl

/-- Claim C2: after the matched expectation's hit count is incremented, the
server replies with its responder's response when the post-increment count
does not exceed the upper cardinality bound — `Included(n)` is exceeded when
the count is greater than `n`, `Excluded(n)` when it is at least `n`, and
`Unbounded` never — and otherwise replies 500 with body exactly
`Unexpected number of requests for matcher <name>; received <n>;
expected <bound>` (the name in single quotes), where the rendered bound is
one of `AtLeast(n)`, `AtMost(n)`, `Exactly(n)`, `Between(a..=b)`, `Any`. -/
theorem claim_c2_cardinality_overflow_response (s : ServerStateInner)
    (req : Request) (i : Nat) (e : Expectation)
    (hf : (find_expectation s req).1 = some i)
    (he : s.expected[i]? = some e) :
    (∀ n c, times_exceeded (.included n) c = decide (c > n))
  ∧ (∀ n c, times_exceeded (.excluded n) c = decide (c ≥ n))
  ∧ (∀ c, times_exceeded .unbounded c = false)
  ∧ (times_exceeded e.times.2 (e.hit_count + 1) = false →
      ∀ resp rNew, e.responder.respond req = some (resp, rNew) →
        ∃ sNew, on_req s req = some (resp, sNew))
  ∧ (times_exceeded e.times.2 (e.hit_count + 1) = true →
      ∀ d, rangeDisplay e.times = some d →
        ∃ sNew, on_req s req = some
          (⟨500, "Unexpected number of requests for matcher \x27" ++ e.matcherName
            ++ "\x27; received " ++ toString (e.hit_count + 1) ++ "; expected " ++ d⟩,
           sNew))
  ∧ (∀ t d, rangeDisplay t = some d →
      (∃ n : Nat, d = "AtLeast(" ++ toString n ++ ")")
    ∨ (∃ n : Nat, d = "AtMost(" ++ toString n ++ ")")
    ∨ (∃ n : Nat, d = "Exactly(" ++ toString n ++ ")")
    ∨ (∃ a b : Nat, d = "Between(" ++ toString a ++ "..=" ++ toString b ++ ")")
    ∨ d = "Any") := by
  refine ⟨fun n c => rfl, fun n c => rfl, fun c => rfl, ?_, ?_, ?_⟩
  · intro hex resp rNew hre
    refine ⟨?_, ?_⟩
    · exact { s with expected := s.expected.set i { e with hit_count := e.hit_count + 1, responder := rNew } }
    · simp [on_req, hf, he, hex, hre]
  · intro hex d hd
    have hte : times_error e.matcherName e.times (e.hit_count + 1)
        = some ("Unexpected number of requests for matcher \x27" ++ e.matcherName
            ++ "\x27; received " ++ toString (e.hit_count + 1) ++ "; expected " ++ d) := by
      simp only [times_error, hd, Option.map_some']
    refine ⟨?_, ?_⟩
    · exact { s with expected := s.expected.set i { e with hit_count := e.hit_count + 1 } }
    · simp [on_req, hf, he, hex, hte]
  · intro t d hd
    simp only [rangeDisplay, Option.map_eq_some'] at hd
    obtain ⟨mb, hmb, hd2⟩ := hd
    cases hstart : rangeDisplayStart t.1 with
    | included mn =>
      rw [hstart] at hd2
      cases mb with
      | included mx =>
        by_cases hmn : (mn == mx) = true
        · refine Or.inr (Or.inr (Or.inl ⟨mx, ?_⟩))
          rw [← hd2]
          simp [renderBounds, hmn]
        · refine Or.inr (Or.inr (Or.inr (Or.inl ⟨mn, mx, ?_⟩)))
          rw [← hd2]
          simp [renderBounds, hmn]
      | unbounded =>
        exact Or.inl ⟨mn, hd2.symm⟩
    | unbounded =>
      rw [hstart] at hd2
      cases mb with
      | included mx =>
        exact Or.inr (Or.inl ⟨mx, hd2.symm⟩)
      | unbounded =>
        exact Or.inr (Or.inr (Or.inr (Or.inr hd2.symm)))

/-- Witness for C2: an exactly-1 expectation already hit once receives a
second matching request and the server replies 500 with the exact overflow
body mentioning `received 2; expected Exactly(1)`. -/
theorem claim_c2_cardinality_overflow_response_witness :
    ∃ sNew, on_req sampleStateExceeded sampleReq = some
      (⟨500, "Unexpected number of requests for matcher \x27Any\x27; received 2; expected Exactly(1)"⟩,
       sNew) :=
  (claim_c2_cardinality_overflow_response sampleStateExceeded sampleReq 0
      { sampleExpBroad with hit_count := 1 } rfl rfl).2.2.2.2.1 rfl "Exactly(1)" rfl

/-- Claim C3: when no registered expectation matches, every matcher was
consulted and evaluated false, the request is appended to the
unexpected-requests log, the reply is 500 with body `No matcher found`; and
`verify_and_clear` invoked while not already panicking panics whenever that
log is non-empty — in particular with the unexpected-requests panic when
every expectation's hit count lies within its bound. -/
theorem claim_c3_no_match_logged_and_verify_panics (s : ServerStateInner)
    (req : Request) (h : (find_expectation s req).1 = none) :
    (∀ j, j < s.expected.length → evalMatcherAt s.expected j req = false)
  ∧ on_req s req = some (⟨500, "No matcher found"⟩,
      { s with unexpected_requests := s.unexpected_requests ++ [req] })
  ∧ (∀ sAfter : ServerStateInner, sAfter.unexpected_requests ≠ [] →
        (verify_and_clear false sAfter).1 ≠ VerifyOutcome.ok
      ∧ (firstUnsatisfied sAfter.expected 0 = none →
          (verify_and_clear false sAfter).1
            = VerifyOutcome.panicUnexpected sAfter.unexpected_requests)) := by
  refine ⟨?_, ?_, ?_⟩
  · exact (findDownFrom_none (eq_pair_of_fst_eq h)).1
  · simp only [on_req, h]
  · intro sAfter hne
    have hemp : sAfter.unexpected_requests.isEmpty = false := by
      cases hu : sAfter.unexpected_requests with
      | nil => exact absurd hu hne
      | cons a l => rfl
    cases hfu : firstUnsatisfied sAfter.expected 0 with
    | some k =>
      constructor
      · simp [verify_and_clear, hfu]
      · intro hcontra
        exact absurd hcontra (by simp)
    | none =>
      constructor
      · simp [verify_and_clear, hfu, hemp]
      · intro _
        simp [verify_and_clear, hfu, hemp]

/-- Witness for C3: a request matching no expectation is logged and answered
with the `No matcher found` 500 response, and verification of the resulting
state panics on the unexpected request. -/
theorem claim_c3_no_match_logged_and_verify_panics_witness :
    on_req sampleStateNoMatch sampleReq = some (⟨500, "No matcher found"⟩,
      { sampleStateNoMatch with unexpected_requests :=
          sampleStateNoMatch.unexpected_requests ++ [sampleReq] })
  ∧ (verify_and_clear false
      { sampleStateNoMatch with unexpected_requests := [sampleReq] }).1
        ≠ VerifyOutcome.ok := by
  have h := claim_c3_no_match_logged_and_verify_panics sampleStateNoMatch sampleReq rfl
  exact ⟨h.2.1, (h.2.2 _ (by simp)).1⟩

/-- Claim C4: under the membership test used at verification
(`hit_count_is_valid`, i.e. range-bounds containment of the final hit count),
the cardinality spec `5` accepts exactly the count 5; `2..` accepts every
count at least 2; `..=7` accepts every count at most 7; `3..6` accepts
exactly the counts 3 through 5; and `3..=6` exactly 3 through 6. -/
theorem claim_c4_cardinality_membership (c : Nat) :
    (hit_count_is_valid (intoTimesUsize 5) c = true ↔ c = 5)
  ∧ (hit_count_is_valid (intoTimesRangeFrom 2) c = true ↔ 2 ≤ c)
  ∧ (hit_count_is_valid (intoTimesRangeToInclusive 7) c = true ↔ c ≤ 7)
  ∧ (hit_count_is_valid (intoTimesRange 3 6) c = true ↔ (3 ≤ c ∧ c ≤ 5))
  ∧ (hit_count_is_valid (intoTimesRangeInclusive 3 6) c = true ↔ (3 ≤ c ∧ c ≤ 6)) := by
  refine ⟨?_, ?_, ?_, ?_, ?_⟩ <;>
    simp [hit_count_is_valid, boundsContains, intoTimesUsize, intoTimesRangeFrom,
      intoTimesRangeToInclusive, intoTimesRange, intoTimesRangeInclusive] <;>
    omega

/-- Claim C5: `Expectation::matching(m).respond_with(r)` without a `.times`
call yields cardinality `(Included(1), Included(1))` and hit count 0, keeping
the matcher and responder; `.times` on any builder replaces only the
cardinality bound with the converted value. -/
theorem claim_c5_builder_defaults (m : Request → Bool) (name : String)
    (r : Responder) (b : ExpectationBuilder) (t : Times) :
    ((Expectation.matching m name).respond_with r).times
        = (HBound.included 1, HBound.included 1)
  ∧ ((Expectation.matching m name).respond_with r).hit_count = 0
  ∧ ((Expectation.matching m name).respond_with r).matcher = m
  ∧ ((Expectation.matching m name).respond_with r).responder = r
  ∧ (b.set_times t).times = t
  ∧ (b.set_times t).matcher = b.matcher
  ∧ (b.set_times t).matcherName = b.matcherName :=
  ⟨rfl, rfl, rfl, rfl, rfl, rfl, rfl⟩

/-- Claim C6: for every input, `AllOf` over the empty matcher list evaluates
to true and `AnyOf` over the empty matcher list evaluates to false (and
neither invokes any sub-matcher). -/
theorem claim_c6_empty_allOf_anyOf {α : Type} (x : α) :
    Matcher.matchesC (Matcher.allOf MatcherList.nil) x = (true, 0)
  ∧ Matcher.matchesC (Matcher.anyOf MatcherList.nil) x = (false, 0) :=
  ⟨rfl, rfl⟩

/-- Claim C7: when the input fails to decode, the typed `JsonDecoded` matcher
returns false with zero `ctx.chain` invocations (the inner matcher is not
invoked, and the evaluation is total — no error is propagated); when decoding
succeeds, the verdict is the inner matcher's verdict on the decoded value
(reached through exactly one additional chain call). -/
theorem claim_c7_jsonDecoded_failure {α β : Type} (parse : α → Option β)
    (inner : Matcher β) (x : α) :
    (parse x = none →
      Matcher.matchesC (Matcher.jsonDecoded parse inner) x = (false, 0))
  ∧ (∀ v, parse x = some v →
      Matcher.matchesC (Matcher.jsonDecoded parse inner) x
        = ((Matcher.matchesC inner v).1, (Matcher.matchesC inner v).2 + 1)) := by
  constructor
  · intro h
    simp [Matcher.matchesC, h]
  · intro v h
    simp [Matcher.matchesC, h]

/-- Witness for C7 at concrete decoders: a failing parse yields `(false, 0)`
and a succeeding parse delegates to the inner matcher. -/
theorem claim_c7_jsonDecoded_failure_witness :
    Matcher.matchesC
        (Matcher.jsonDecoded (fun _ : String => (none : Option Nat))
          (.fn (fun n => n == 3))) "x" = (false, 0)
  ∧ Matcher.matchesC
        (Matcher.jsonDecoded (fun _ : String => (some 3 : Option Nat))
          (.fn (fun n => n == 3))) "x" = (true, 1) :=
  ⟨(claim_c7_jsonDecoded_failure (fun _ => none) (.fn (fun n => n == 3)) "x").1 rfl,
   (claim_c7_jsonDecoded_failure (fun _ => some 3) (.fn (fun n => n == 3)) "x").2 3 rfl⟩

/-- Inversion of a successful `Cycle::respond`: the response comes from the
responder stored at the current index, that slot is updated in place, and the
index advances by one modulo the list length. -/
theorem cycle_step (i : Nat) (rs : List Responder) (req : Request)
    (resp : Response) (rNew : Responder)
    (h : Responder.respond (.cycle i rs) req = some (resp, rNew)) :
    ∃ inner innerNew, rs[i]? = some inner
      ∧ inner.respond req = some (resp, innerNew)
      ∧ rNew = .cycle ((i + 1) % rs.length) (rs.set i innerNew) := by
  rw [respond_cycle] at h
  cases hx : rs[i]? with
  | none =>
    simp only [hx] at h
    exact absurd h (by simp)
  | some r =>
    simp only [hx] at h
    cases hr : r.respond req with
    | none =>
      simp only [hr] at h
      exact absurd h (by simp)
    | some p =>
      simp only [hr] at h
      have hfst : p.1 = resp := congrArg Prod.fst (Option.some.inj h)
      have hsnd : Responder.cycle ((i + 1) % rs.length) (rs.set i p.2) = rNew :=
        congrArg Prod.snd (Option.some.inj h)
      refine ⟨r, p.2, rfl, ?_, hsnd.symm⟩
      rw [hr, ← hfst]

/-- After `k` successful invocations starting at index `i < n`, a `Cycle`
responder's index is `(i + k) % n` and its list length is unchanged. -/
theorem respondSeq_cycle_index (req : Request) :
    ∀ (k i : Nat) (rs : List Responder) (out : List Response) (st : Responder),
      i < rs.length →
      respondSeq (.cycle i rs) req k = some (out, st) →
      ∃ rsK, st = .cycle ((i + k) % rs.length) rsK ∧ rsK.length = rs.length := by
  intro k
  induction k with
  | zero =>
    intro i rs out st hi h
    simp only [respondSeq] at h
    refine ⟨rs, ?_, rfl⟩
    have hsnd : Responder.cycle i rs = st := congrArg Prod.snd (Option.some.inj h)
    rw [← hsnd, Nat.add_zero, Nat.mod_eq_of_lt hi]
  | succ k ih =>
    intro i rs out st hi h
    simp only [respondSeq] at h
    cases hr : Responder.respond (.cycle i rs) req with
    | none =>
      simp only [hr] at h
      exact absurd h (by simp)
    | some p =>
      simp only [hr] at h
      obtain ⟨inner, innerNew, hget, hresp, hshape⟩ :=
        cycle_step i rs req p.1 p.2 (by rw [hr])
      cases hseq : respondSeq p.2 req k with
      | none =>
        simp only [hseq] at h
        exact absurd h (by simp)
      | some q =>
        simp only [hseq] at h
        have hst : q.2 = st := congrArg Prod.snd (Option.some.inj h)
        rw [hshape] at hseq
        have hlen : (rs.set i innerNew).length = rs.length := by simp
        have hpos : 0 < rs.length := by omega
        have hj : (i + 1) % rs.length < (rs.set i innerNew).length := by
          rw [hlen]
          exact Nat.mod_lt _ hpos
        obtain ⟨rsK, hqshape, hklen⟩ := ih ((i + 1) % rs.length)
          (rs.set i innerNew) q.1 q.2 hj hseq
        rw [hlen] at hklen
        refine ⟨rsK, ?_, hklen⟩
        rw [← hst, hqshape, hlen]
        have hmod : ((i + 1) % rs.length + k) % rs.length
            = (i + (k + 1)) % rs.length := by
          rw [Nat.mod_add_mod]
          congr 1
          omega
        rw [hmod]

/-- Claim C8: a successful `Cycle` invocation answers from the responder at
the current index and advances the index by exactly one modulo the list
length; starting from index 0, the state before the `k`-th invocation
(counting from 0) has index `k mod n`, so the `k`-th invocation uses the
responder at position `k mod n`; and a cycle over statuses `[200, 404]`
invoked four times yields `200, 404, 200, 404` in order. -/
theorem claim_c8_cycle_modular (i : Nat) (rs : List Responder) (req : Request)
    (resp : Response) (rNew : Responder) (k : Nat) (rs2 : List Responder)
    (out : List Response) (st : Responder)
    (h1 : Responder.respond (.cycle i rs) req = some (resp, rNew))
    (h2 : 0 < rs2.length)
    (h3 : respondSeq (.cycle 0 rs2) req k = some (out, st)) :
    (∃ inner innerNew, rs[i]? = some inner
      ∧ inner.respond req = some (resp, innerNew)
      ∧ rNew = .cycle ((i + 1) % rs.length) (rs.set i innerNew))
  ∧ (∃ rsK, st = .cycle (k % rs2.length) rsK ∧ rsK.length = rs2.length)
  ∧ respondSeq (.cycle 0 [.status_code 200, .status_code 404]) req 4
      = some ([⟨200, ""⟩, ⟨404, ""⟩, ⟨200, ""⟩, ⟨404, ""⟩],
              .cycle 0 [.status_code 200, .status_code 404]) := by
  refine ⟨cycle_step i rs req resp rNew h1, ?_, ?_⟩
  · obtain ⟨rsK, hshape, hlen⟩ := respondSeq_cycle_index req k 0 rs2 out st h2 h3
    rw [Nat.zero_add] at hshape
    exact ⟨rsK, hshape, hlen⟩
  · rfl

/-- Witness for C8: the concrete two-element cycle starting at index 0,
invoked once and four times. -/
theorem claim_c8_cycle_modular_witness :
    (∃ inner innerNew,
        ([Responder.status_code 200, Responder.status_code 404])[0]? = some inner
      ∧ inner.respond sampleReq = some (⟨200, ""⟩, innerNew)
      ∧ Responder.cycle 1 [Responder.status_code 200, Responder.status_code 404]
          = .cycle ((0 + 1) % ([Responder.status_code 200, Responder.status_code 404] : List Responder).length)
              (([Responder.status_code 200, Responder.status_code 404] : List Responder).set 0 innerNew))
  ∧ (∃ rsK, Responder.cycle 0 [Responder.status_code 200, Responder.status_code 404]
        = .cycle (4 % ([Responder.status_code 200, Responder.status_code 404] : List Responder).length) rsK
      ∧ rsK.length = ([Responder.status_code 200, Responder.status_code 404] : List Responder).length) := by
  have h := claim_c8_cycle_modular 0 [.status_code 200, .status_code 404] sampleReq
    ⟨200, ""⟩ (.cycle 1 [.status_code 200, .status_code 404]) 4
    [.status_code 200, .status_code 404]
    [⟨200, ""⟩, ⟨404, ""⟩, ⟨200, ""⟩, ⟨404, ""⟩]
    (.cycle 0 [.status_code 200, .status_code 404])
    rfl
    (by simp)
    rfl
  exact ⟨h.1, h.2.1⟩

/-- Claim C9: `RangeDisplay` canonicalizes an `Excluded(x)` upper bound to
`Included(x - 1)`; the `usize` subtraction is well-defined exactly when
`x ≥ 1`, and for `Excluded(0)` (e.g. the specification `0..0`) it underflows
(modelled as `none`, the Rust panic). -/
theorem claim_c9_rangeDisplay_underflow (x : Nat) (hx : 1 ≤ x) :
    rangeDisplayEnd (.excluded x) = some (.included (x - 1))
  ∧ rangeDisplayEnd (.excluded 0) = none
  ∧ intoTimesRange 0 0 = (.included 0, .excluded 0)
  ∧ rangeDisplay (intoTimesRange 0 0) = none := by
  refine ⟨?_, rfl, rfl, rfl⟩
  simp [rangeDisplayEnd, checkedSub, hx]

/-- Witness for C9 at `x = 1`: `Excluded(1)` canonicalizes to `Included(0)`. -/
theorem claim_c9_rangeDisplay_underflow_witness :
    rangeDisplayEnd (.excluded 1) = some (.included 0) :=
  (claim_c9_rangeDisplay_underflow 1 (by decide)).1

/-- Claim C10: the `request::query` matcher hands its inner matcher the empty
string when the URI has no query string (one chain call, never failing or
trivially rejecting), treats an absent query exactly like an empty one, and
`request::query("")` matches precisely the requests whose query string is
absent or empty. -/
theorem claim_c10_query_absent (inner : Matcher String) (req : Request) :
    Matcher.matchesC (Matcher.query inner) req
      = ((Matcher.matchesC inner (req.query.getD "")).1,
         (Matcher.matchesC inner (req.query.getD "")).2 + 1)
  ∧ Matcher.matchesC (Matcher.query inner) { req with query := none }
      = Matcher.matchesC (Matcher.query inner) { req with query := some "" }
  ∧ ((Matcher.matchesC (Matcher.query (strMatcher "")) req).1 = true
      ↔ (req.query = none ∨ req.query = some "")) := by
  refine ⟨rfl, rfl, ?_⟩
  have hred : (Matcher.matchesC (Matcher.query (strMatcher "")) req).1
      = ("" == req.query.getD "") := rfl
  rw [hred]
  cases hq : req.query with
  | none => exact iff_of_true rfl (Or.inl rfl)
  | some q =>
    constructor
    · intro h
      have hq2 : "" = q := eq_of_beq h
      exact Or.inr (by rw [← hq2])
    · rintro (h | h)
      · exact Option.noConfusion h
      · have hq2 : q = "" := by injection h
        rw [hq2]
        rfl

end Httptest
